import Mathlib

/-!
Shallow embedding of `src/tiny_rb.h` (tiny_rb): a fixed-capacity generic
ring buffer with FIFO and LIFO access disciplines over shared
`head`/`tail`/`count` state.

The C code works on `size_t` fields; all index arithmetic that can wrap
(`x++`, `x--`, `(x + 1) % capacity`) is modeled on `Nat` with an explicit
modulus `SIZE_MOD = 2^64` wherever the C expression can overflow or
underflow.  Storage is a `List α` of length `capacity`; the C `memcpy`
reads become `List.getD` (out-of-range reads, which are undefined
behavior in C, return `default`) and writes become `List.set`
(out-of-range writes, likewise UB, are no-ops).  Operations that return
a status code in C (`0` success, `-1` full/empty) return that code as an
`Int` together with the new state and, for pop/peek, the value written
through the caller's out-pointer (on failure the out-location is
returned unchanged, as in C).
-/

/-- Modulus of C `size_t` arithmetic (64-bit build). -/
def SIZE_MOD : Nat := 2 ^ 64

/-- The buffer struct declared by `TRB_RB_DEFINE(TYPE, NAME, CAPACITY)`:
a `CAPACITY`-slot array plus `capacity`, `head`, `tail`, `count`. -/
structure TRB (α : Type) where
  buf : List α
  capacity : Nat
  head : Nat
  tail : Nat
  count : Nat
deriving Repr, DecidableEq

/-- `TRB_RB_DEFINE`: initial state, zero-filled storage,
`head = tail = count = 0`, `capacity = CAPACITY`. -/
def trb_define (d : α) (cap : Nat) : TRB α :=
  { buf := List.replicate cap d, capacity := cap, head := 0, tail := 0, count := 0 }

/-- `trb_is_empty(NAME)`: `count == 0`. -/
def trb_is_empty (b : TRB α) : Bool :=
  b.count == 0

/-- `trb_is_full(NAME)`: `count == capacity`. -/
def trb_is_full (b : TRB α) : Bool :=
  b.count == b.capacity

/-- `trb_size(NAME)`: `count`. -/
def trb_size (b : TRB α) : Nat :=
  b.count

/-- `trb_capacity(NAME)`: `capacity`. -/
def trb_capacity (b : TRB α) : Nat :=
  b.capacity

/-- `trb_remaining(NAME)`: `capacity - count` (C `size_t` subtraction;
truncated subtraction on `Nat` agrees with it whenever `count <= capacity`). -/
def trb_remaining (b : TRB α) : Nat :=
  b.capacity - b.count

/-- `trb_flush(NAME)`: `head = 0; tail = 0; count = 0;` — slot contents
are not touched. -/
def trb_flush (b : TRB α) : TRB α :=
  { b with head := 0, tail := 0, count := 0 }

/-- `trb_fifo_push(NAME, VALUE_PTR)`: if full return `-1`; else write at
`tail`, `tail = (tail + 1) % capacity`, `count++`, return `0`. -/
def trb_fifo_push (b : TRB α) (v : α) : Int × TRB α :=
  if trb_is_full b then (-1, b)
  else (0, { b with buf := b.buf.set b.tail v,
                    tail := (b.tail + 1) % b.capacity,
                    count := (b.count + 1) % SIZE_MOD })

/-- `trb_fifo_force_push(NAME, VALUE_PTR)`: write at `tail`,
`tail = (tail + 1) % capacity`; then (count still unchanged) if full
advance `head = (head + 1) % capacity`, else `count++`.  No status code:
it never fails. -/
def trb_fifo_force_push (b : TRB α) (v : α) : TRB α :=
  let b1 : TRB α := { b with buf := b.buf.set b.tail v,
                             tail := (b.tail + 1) % b.capacity }
  if trb_is_full b1 then { b1 with head := (b1.head + 1) % b1.capacity }
  else { b1 with count := (b1.count + 1) % SIZE_MOD }

/-- C `size_t` decrement `x--`: wraps around to `2^64 - 1` when `x = 0`.
On every representable `size_t` value (`x < 2^64`) this equals
`(x + (2^64 - 1)) % 2^64`, the usual two's-complement formulation. -/
def size_t_dec (x : Nat) : Nat :=
  if x = 0 then SIZE_MOD - 1 else x - 1

/-- `trb_fifo_pop(NAME, VALUE_PTR)`: if empty return `-1` (out-location
untouched); else copy `buf[head]` to out, `head = (head + 1) % capacity`,
`count--`, return `0`. -/
def trb_fifo_pop [Inhabited α] (b : TRB α) (out : α) : Int × TRB α × α :=
  if trb_is_empty b then (-1, b, out)
  else (0, { b with head := (b.head + 1) % b.capacity,
                    count := size_t_dec b.count },
        b.buf.getD b.head default)

/-- `trb_fifo_peek(NAME, VALUE_PTR)`: if empty return `-1`; else copy
`buf[head]` to out.  No state field is assigned. -/
def trb_fifo_peek [Inhabited α] (b : TRB α) (out : α) : Int × TRB α × α :=
  if trb_is_empty b then (-1, b, out)
  else (0, b, b.buf.getD b.head default)

/-- `trb_lifo_push(NAME, VALUE_PTR)`: if full return `-1`; else write at
`head`, `head++`, `count++`, return `0`. -/
def trb_lifo_push (b : TRB α) (v : α) : Int × TRB α :=
  if trb_is_full b then (-1, b)
  else (0, { b with buf := b.buf.set b.head v,
                    head := (b.head + 1) % SIZE_MOD,
                    count := (b.count + 1) % SIZE_MOD })

/-- `trb_lifo_pop(NAME, VALUE_PTR)`: if empty return `-1`; else copy
`buf[head - 1]` to out, `head--`, `count--`, return `0`.  `head - 1` is
C `size_t` subtraction: it wraps to `2^64 - 1` when `head = 0`. -/
def trb_lifo_pop [Inhabited α] (b : TRB α) (out : α) : Int × TRB α × α :=
  if trb_is_empty b then (-1, b, out)
  else (0, { b with head := size_t_dec b.head,
                    count := size_t_dec b.count },
        b.buf.getD (size_t_dec b.head) default)

/-- `trb_lifo_peek(NAME, VALUE_PTR)`: if empty return `-1`; else copy
`buf[head - 1]` to out (`size_t` subtraction).  No state field is
assigned. -/
def trb_lifo_peek [Inhabited α] (b : TRB α) (out : α) : Int × TRB α × α :=
  if trb_is_empty b then (-1, b, out)
  else (0, b, b.buf.getD (size_t_dec b.head) default)

/-- One buffer operation from the API of `tiny_rb.h`. -/
inductive Op (α : Type) where
  | fifoPush (v : α)
  | fifoForcePush (v : α)
  | fifoPop
  | fifoPeek
  | lifoPush (v : α)
  | lifoPop
  | lifoPeek
  | flush
deriving Repr, DecidableEq

/-- Execute one operation: the new state, plus the value a successful pop
copies through its out-pointer (`none` for non-pops and failed pops). -/
def trb_stepO [Inhabited α] (b : TRB α) : Op α → TRB α × Option α
  | .fifoPush v => ((trb_fifo_push b v).2, none)
  | .fifoForcePush v => (trb_fifo_force_push b v, none)
  | .fifoPop =>
      let r := trb_fifo_pop b default
      (r.2.1, if r.1 = 0 then some r.2.2 else none)
  | .fifoPeek => ((trb_fifo_peek b default).2.1, none)
  | .lifoPush v => ((trb_lifo_push b v).2, none)
  | .lifoPop =>
      let r := trb_lifo_pop b default
      (r.2.1, if r.1 = 0 then some r.2.2 else none)
  | .lifoPeek => ((trb_lifo_peek b default).2.1, none)
  | .flush => (trb_flush b, none)

/-- Run a sequence of operations. -/
def trb_run [Inhabited α] (b : TRB α) : List (Op α) → TRB α
  | [] => b
  | op :: rest => trb_run (trb_stepO b op).1 rest

/-- Run a sequence of operations, collecting the values returned by the
successful pops, in order. -/
def trb_trace [Inhabited α] (b : TRB α) : List (Op α) → List α
  | [] => []
  | op :: rest => (trb_stepO b op).2.toList ++ trb_trace (trb_stepO b op).1 rest

/-- The operation uses only the FIFO discipline (or flush). -/
def Op.isFifo : Op α → Bool
  | .fifoPush _ => true
  | .fifoForcePush _ => true
  | .fifoPop => true
  | .fifoPeek => true
  | .flush => true
  | _ => false

/-- The operation uses only the LIFO discipline (or flush). -/
def Op.isLifo : Op α → Bool
  | .lifoPush _ => true
  | .lifoPop => true
  | .lifoPeek => true
  | .flush => true
  | _ => false

/-- A FIFO-only operation sequence. -/
@[reducible] def FifoOnly (ops : List (Op α)) : Prop :=
  ∀ op ∈ ops, op.isFifo = true

/-- A LIFO-only operation sequence. -/
@[reducible] def LifoOnly (ops : List (Op α)) : Prop :=
  ∀ op ∈ ops, op.isLifo = true

/-- Logical FIFO content of the buffer: the `count` elements starting at
`head`, read in ring order. -/
def trb_model [Inhabited α] (b : TRB α) : List α :=
  (List.range b.count).map (fun i => b.buf.getD ((b.head + i) % b.capacity) default)

/-- Logical LIFO content of the buffer: the `count` elements from slot 0
up, top of stack last. -/
def trb_lmodel [Inhabited α] (b : TRB α) : List α :=
  (List.range b.count).map (fun i => b.buf.getD i default)

/-- Modelled from the spec: one step of the abstract bounded FIFO queue of
capacity `cap` that the spec's ordering guarantee describes ("the Nth
successful pop returns the Nth successful push not yet popped, modulo
force-push overwrites which retire the oldest unread element").
Returns the new queue and the value delivered by a successful pop. -/
def spec_fifo_stepO (cap : Nat) (q : List α) : Op α → List α × Option α
  | .fifoPush v => if q.length = cap then (q, none) else (q ++ [v], none)
  | .fifoForcePush v =>
      if q.length = cap then (q.drop 1 ++ [v], none) else (q ++ [v], none)
  | .fifoPop => (q.drop 1, q.head?)
  | .flush => ([], none)
  | _ => (q, none)

/-- Modelled from the spec: the abstract FIFO queue after a sequence of
operations. -/
def spec_fifo_run (cap : Nat) (q : List α) : List (Op α) → List α
  | [] => q
  | op :: rest => spec_fifo_run cap (spec_fifo_stepO cap q op).1 rest

/-- Modelled from the spec: the values the abstract FIFO queue delivers to
the successful pops of a sequence of operations, in order. -/
def spec_fifo_trace (cap : Nat) (q : List α) : List (Op α) → List α
  | [] => []
  | op :: rest =>
      (spec_fifo_stepO cap q op).2.toList ++
        spec_fifo_trace cap (spec_fifo_stepO cap q op).1 rest

/-- Modelled from the spec: one step of the abstract bounded stack of
capacity `cap` that the spec's LIFO ordering guarantee describes ("the Nth
successful pop returns the most recently pushed element not yet popped").
Top of stack is the last list element. -/
def spec_lifo_stepO (cap : Nat) (q : List α) : Op α → List α × Option α
  | .lifoPush v => if q.length = cap then (q, none) else (q ++ [v], none)
  | .lifoPop => (q.dropLast, q.getLast?)
  | .flush => ([], none)
  | _ => (q, none)

/-- Modelled from the spec: the abstract stack after a sequence of
operations. -/
def spec_lifo_run (cap : Nat) (q : List α) : List (Op α) → List α
  | [] => q
  | op :: rest => spec_lifo_run cap (spec_lifo_stepO cap q op).1 rest

/-- Modelled from the spec: the values the abstract stack delivers to the
successful pops of a sequence of operations, in order. -/
def spec_lifo_trace (cap : Nat) (q : List α) : List (Op α) → List α
  | [] => []
  | op :: rest =>
      (spec_lifo_stepO cap q op).2.toList ++
        spec_lifo_trace cap (spec_lifo_stepO cap q op).1 rest

/-! ### Arithmetic and storage helper lemmas -/

theorem SIZE_MOD_pos : 0 < SIZE_MOD := by decide

theorem size_inc (x : Nat) (h : x + 1 < SIZE_MOD) : (x + 1) % SIZE_MOD = x + 1 :=
  Nat.mod_eq_of_lt h

theorem size_dec (x : Nat) (h0 : 0 < x) (h1 : x < SIZE_MOD) :
    size_t_dec x = x - 1 := by
  rw [size_t_dec, if_neg (by omega)]

/-- The conditional definition of the `size_t` decrement agrees with the
two's-complement formulation `(x + (2^64 - 1)) % 2^64` on every
representable value. -/
theorem size_t_dec_eq_mod (x : Nat) (h1 : x < SIZE_MOD) :
    size_t_dec x = (x + (SIZE_MOD - 1)) % SIZE_MOD := by
  have hm : 0 < SIZE_MOD := SIZE_MOD_pos
  by_cases h0 : x = 0
  · subst h0
    rw [size_t_dec, if_pos rfl, Nat.zero_add, Nat.mod_eq_of_lt (by omega)]
  · rw [size_t_dec, if_neg h0]
    have he : x + (SIZE_MOD - 1) = (x - 1) + 1 * SIZE_MOD := by omega
    rw [he, Nat.add_mul_mod_self_right, Nat.mod_eq_of_lt (by omega)]

theorem mod_cancel (cap h i j : Nat) (hi : i < cap) (hj : j < cap)
    (hij : (h + i) % cap = (h + j) % cap) : i = j := by
  have hmod : i % cap = j % cap := Nat.ModEq.add_left_cancel' h hij
  rwa [Nat.mod_eq_of_lt hi, Nat.mod_eq_of_lt hj] at hmod

theorem getD_set_ne (l : List α) (i j : Nat) (v d : α) (h : i ≠ j) :
    (l.set i v).getD j d = l.getD j d := by
  simp [List.getD, List.getElem?_set_ne h]

theorem getD_set_eq (l : List α) (i : Nat) (v d : α) (h : i < l.length) :
    (l.set i v).getD i d = v := by
  simp [List.getD, List.getElem?_set_eq_of_lt v h]

/-! ### The FIFO representation invariant and one-step simulation -/

/-- Representation invariant of a buffer used in FIFO discipline:
`head` is in range, `count` bounded by the capacity, storage has
`capacity` slots, and `tail` is `head + count` in ring arithmetic. -/
structure FifoInv (cap : Nat) (b : TRB α) : Prop where
  hcapacity : b.capacity = cap
  hlen : b.buf.length = cap
  hcount : b.count ≤ cap
  hhead : b.head < cap
  htail : b.tail = (b.head + b.count) % cap

theorem trb_model_length [Inhabited α] (b : TRB α) : (trb_model b).length = b.count := by
  simp [trb_model]

theorem fifoInv_define (d : α) (cap : Nat) (h0 : 0 < cap) :
    FifoInv cap (trb_define d cap) := by
  refine ⟨rfl, by simp [trb_define], Nat.zero_le _, h0, by simp [trb_define]⟩

theorem trb_model_define [Inhabited α] (d : α) (cap : Nat) :
    trb_model (trb_define d cap) = [] := by
  simp [trb_model, trb_define]

/-- Successful FIFO push: appends at the logical end. -/
theorem fifo_push_ok [Inhabited α] (cap : Nat) (h0 : 0 < cap) (hM : cap < SIZE_MOD)
    (b : TRB α) (hinv : FifoInv cap b) (v : α) (hnf : b.count < cap) :
    trb_fifo_push b v =
      (0, { b with buf := b.buf.set b.tail v,
                   tail := (b.tail + 1) % cap,
                   count := b.count + 1 }) ∧
    FifoInv cap (trb_fifo_push b v).2 ∧
    trb_model (trb_fifo_push b v).2 = trb_model b ++ [v] := by
  obtain ⟨hc, hl, hn, hh, ht⟩ := hinv
  have hfull : trb_is_full b = false := by
    simp [trb_is_full]
    omega
  have hcnt : (b.count + 1) % SIZE_MOD = b.count + 1 := size_inc _ (by omega)
  have heq : trb_fifo_push b v =
      (0, { b with buf := b.buf.set b.tail v,
                   tail := (b.tail + 1) % cap,
                   count := b.count + 1 }) := by
    simp [trb_fifo_push, hfull, hc, hcnt]
  refine ⟨heq, ?_, ?_⟩
  · rw [heq]
    dsimp only
    refine ⟨hc, by simpa using hl, by dsimp only; omega, hh, ?_⟩
    dsimp only
    simp only [ht]
    rw [Nat.mod_add_mod]
    ring_nf
  · rw [heq]
    dsimp only
    simp only [trb_model, hc]
    rw [List.range_succ, List.map_append]
    congr 1
    · refine List.map_congr_left ?_
      intro i hi
      have hilt : i < b.count := List.mem_range.mp hi
      refine getD_set_ne _ _ _ _ _ ?_
      intro hcontra
      rw [ht] at hcontra
      have := mod_cancel cap b.head b.count i (by omega) (by omega) hcontra
      omega
    · simp only [List.map_cons, List.map_nil]
      congr 1
      rw [ht]
      exact getD_set_eq _ _ _ _ (by rw [hl]; exact Nat.mod_lt _ h0)

/-- Failed FIFO push: full buffer, state unchanged, code `-1`. -/
theorem fifo_push_full (b : TRB α) (v : α) (hf : b.count = b.capacity) :
    trb_fifo_push b v = (-1, b) := by
  simp [trb_fifo_push, trb_is_full, hf]

/-- Decomposition of the FIFO model of a nonempty buffer: front element
followed by the shifted remainder. -/
theorem trb_model_cons [Inhabited α] (cap : Nat) (h0 : 0 < cap)
    (b : TRB α) (hinv : FifoInv cap b) (hne : 0 < b.count) :
    trb_model b =
      b.buf.getD b.head default ::
        (List.range (b.count - 1)).map
          (fun i => b.buf.getD ((b.head + 1 + i) % cap) default) := by
  obtain ⟨hc, hl, hn, hh, ht⟩ := hinv
  obtain ⟨m, hm⟩ : ∃ m, b.count = m + 1 := ⟨b.count - 1, by omega⟩
  simp only [trb_model, hc, hm, List.range_succ_eq_map, List.map_cons, List.map_map,
    Nat.add_sub_cancel]
  congr 1
  · rw [Nat.add_zero, Nat.mod_eq_of_lt hh]
  · refine List.map_congr_left ?_
    intro i _
    simp only [Function.comp]
    congr 2
    omega

/-- Successful FIFO pop: returns the front of the model, drops it. -/
theorem fifo_pop_ok [Inhabited α] (cap : Nat) (h0 : 0 < cap) (hM : cap < SIZE_MOD)
    (b : TRB α) (hinv : FifoInv cap b) (out : α) (hne : 0 < b.count) :
    trb_fifo_pop b out =
      (0, { b with head := (b.head + 1) % cap, count := b.count - 1 },
       b.buf.getD b.head default) ∧
    FifoInv cap (trb_fifo_pop b out).2.1 ∧
    some (trb_fifo_pop b out).2.2 = (trb_model b).head? ∧
    trb_model (trb_fifo_pop b out).2.1 = (trb_model b).drop 1 := by
  obtain ⟨hc, hl, hn, hh, ht⟩ := hinv
  have hemp : trb_is_empty b = false := by
    simp [trb_is_empty]
    omega
  have hcnt : size_t_dec b.count = b.count - 1 :=
    size_dec _ hne (by omega)
  have heq : trb_fifo_pop b out =
      (0, { b with head := (b.head + 1) % cap, count := b.count - 1 },
       b.buf.getD b.head default) := by
    simp [trb_fifo_pop, hemp, hc, hcnt]
  have hmodel := trb_model_cons cap h0 b ⟨hc, hl, hn, hh, ht⟩ hne
  refine ⟨heq, ?_, ?_, ?_⟩
  · rw [heq]
    dsimp only
    refine ⟨hc, hl, by dsimp only; omega, Nat.mod_lt _ h0, ?_⟩
    dsimp only
    rw [ht, Nat.mod_add_mod]
    have harith : b.head + 1 + (b.count - 1) = b.head + b.count := by omega
    rw [harith]
  · rw [heq, hmodel]
    rfl
  · rw [heq, hmodel]
    dsimp only
    simp only [trb_model, List.drop_one, List.tail_cons, hc]
    refine List.map_congr_left ?_
    intro i _
    rw [Nat.mod_add_mod]

/-- Failed FIFO pop: empty buffer, state and out-location unchanged. -/
theorem fifo_pop_empty [Inhabited α] (b : TRB α) (out : α) (he : b.count = 0) :
    trb_fifo_pop b out = (-1, b, out) := by
  simp [trb_fifo_pop, trb_is_empty, he]

/-- Successful FIFO peek: returns the front of the model, changes nothing. -/
theorem fifo_peek_ok [Inhabited α] (cap : Nat) (h0 : 0 < cap)
    (b : TRB α) (hinv : FifoInv cap b) (out : α) (hne : 0 < b.count) :
    trb_fifo_peek b out = (0, b, b.buf.getD b.head default) ∧
    some (trb_fifo_peek b out).2.2 = (trb_model b).head? := by
  have hemp : trb_is_empty b = false := by
    simp [trb_is_empty]
    omega
  have heq : trb_fifo_peek b out = (0, b, b.buf.getD b.head default) := by
    simp [trb_fifo_peek, hemp]
  have hmodel := trb_model_cons cap h0 b hinv hne
  refine ⟨heq, ?_⟩
  rw [heq, hmodel]
  rfl

/-- Failed FIFO peek: empty buffer, nothing changes. -/
theorem fifo_peek_empty [Inhabited α] (b : TRB α) (out : α) (he : b.count = 0) :
    trb_fifo_peek b out = (-1, b, out) := by
  simp [trb_fifo_peek, trb_is_empty, he]

/-- Flush: zeroes the indices, keeps storage, restores the invariant. -/
theorem flush_inv (cap : Nat) (h0 : 0 < cap) (b : TRB α) (hinv : FifoInv cap b) :
    FifoInv cap (trb_flush b) := by
  obtain ⟨hc, hl, _, _, _⟩ := hinv
  exact ⟨hc, hl, Nat.zero_le _, h0, by simp [trb_flush]⟩

theorem trb_model_flush [Inhabited α] (b : TRB α) : trb_model (trb_flush b) = [] := by
  simp [trb_model, trb_flush]

/-- FIFO force-push on a non-full buffer behaves like a plain push. -/
theorem fifo_force_push_notfull [Inhabited α] (cap : Nat) (h0 : 0 < cap)
    (hM : cap < SIZE_MOD) (b : TRB α) (hinv : FifoInv cap b) (v : α)
    (hnf : b.count < cap) :
    trb_fifo_force_push b v =
      { b with buf := b.buf.set b.tail v,
               tail := (b.tail + 1) % cap,
               count := b.count + 1 } ∧
    FifoInv cap (trb_fifo_force_push b v) ∧
    trb_model (trb_fifo_force_push b v) = trb_model b ++ [v] := by
  have hpush := fifo_push_ok cap h0 hM b hinv v hnf
  have heq : trb_fifo_force_push b v = (trb_fifo_push b v).2 := by
    obtain ⟨hc, hl, hn, hh, ht⟩ := hinv
    have hfull : b.count ≠ b.capacity := by omega
    simp [trb_fifo_force_push, trb_fifo_push, trb_is_full, hfull]
  rw [heq, hpush.1]
  exact ⟨rfl, by rw [← hpush.1]; exact hpush.2.1, by rw [← hpush.1]; exact hpush.2.2⟩

/-- FIFO force-push on a full buffer: overwrites the oldest element,
advances both indices, keeps `count`. -/
theorem fifo_force_push_full [Inhabited α] (cap : Nat) (h0 : 0 < cap)
    (b : TRB α) (hinv : FifoInv cap b) (v : α) (hf : b.count = cap) :
    trb_fifo_force_push b v =
      { b with buf := b.buf.set b.tail v,
               tail := (b.tail + 1) % cap,
               head := (b.head + 1) % cap } ∧
    FifoInv cap (trb_fifo_force_push b v) ∧
    trb_model (trb_fifo_force_push b v) = (trb_model b).drop 1 ++ [v] := by
  obtain ⟨hc, hl, hn, hh, ht⟩ := hinv
  have htequal : b.tail = b.head := by
    rw [ht, hf, Nat.add_mod_right, Nat.mod_eq_of_lt hh]
  have heq : trb_fifo_force_push b v =
      { b with buf := b.buf.set b.tail v,
               tail := (b.tail + 1) % cap,
               head := (b.head + 1) % cap } := by
    simp [trb_fifo_force_push, trb_is_full, hc, hf]
  refine ⟨heq, ?_, ?_⟩
  · rw [heq]
    refine ⟨hc, by simpa using hl, by dsimp only; omega, Nat.mod_lt _ h0, ?_⟩
    show (b.tail + 1) % cap = ((b.head + 1) % cap + b.count) % cap
    rw [htequal, Nat.mod_add_mod, hf]
    have harith : b.head + 1 + cap = (b.head + 1) + cap := by omega
    rw [harith, Nat.add_mod_right]
  · rw [heq]
    have hmodel := trb_model_cons cap h0 b ⟨hc, hl, hn, hh, ht⟩ (by omega)
    rw [hmodel]
    simp only [trb_model, hc, List.drop_one, List.tail_cons]
    have hcnt : b.count = (b.count - 1) + 1 := by omega
    rw [hcnt, List.range_succ, List.map_append]
    congr 1
    · refine List.map_congr_left ?_
      intro i hi
      have hilt : i < b.count - 1 := List.mem_range.mp hi
      rw [Nat.mod_add_mod]
      refine getD_set_ne _ _ _ _ _ ?_
      intro hcontra
      rw [htequal] at hcontra
      have hzero : (b.head + 0) % cap = (b.head + (1 + i)) % cap := by
        rw [Nat.add_zero, Nat.mod_eq_of_lt hh, hcontra]
        congr 1
        omega
      have h01 := mod_cancel cap b.head 0 (1 + i) h0 (by omega) hzero
      omega
    · simp only [List.map_cons, List.map_nil]
      congr 1
      rw [Nat.mod_add_mod, htequal]
      have hidx : (b.head + 1 + (b.count - 1)) % cap = b.head := by
        have hsum : b.head + 1 + (b.count - 1) = b.head + cap := by omega
        rw [hsum, Nat.add_mod_right, Nat.mod_eq_of_lt hh]
      rw [hidx]
      exact getD_set_eq _ _ _ _ (by rw [hl]; exact hh)

/-- One FIFO-mode step of the buffer simulates one step of the abstract
bounded queue: invariant preserved, models stay equal, pop outputs agree. -/
theorem fifo_stepO_sim [Inhabited α] (cap : Nat) (h0 : 0 < cap) (hM : cap < SIZE_MOD)
    (b : TRB α) (hinv : FifoInv cap b) (op : Op α) (hop : op.isFifo = true) :
    FifoInv cap (trb_stepO b op).1 ∧
      trb_model (trb_stepO b op).1 = (spec_fifo_stepO cap (trb_model b) op).1 ∧
      (trb_stepO b op).2 = (spec_fifo_stepO cap (trb_model b) op).2 := by
  have hlen : (trb_model b).length = b.count := trb_model_length b
  cases op with
  | fifoPush v =>
    by_cases hfull : b.count = cap
    · have hf' : b.count = b.capacity := by rw [hinv.hcapacity]; exact hfull
      have hpush := fifo_push_full b v hf'
      have hstep : trb_stepO b (Op.fifoPush v) = (b, none) := by
        simp [trb_stepO, hpush]
      have hspec : spec_fifo_stepO cap (trb_model b) (Op.fifoPush v) = (trb_model b, none) := by
        simp [spec_fifo_stepO, hlen, hfull]
      rw [hstep, hspec]
      exact ⟨hinv, rfl, rfl⟩
    · have hlt : b.count < cap := by have := hinv.hcount; omega
      have hpush := fifo_push_ok cap h0 hM b hinv v hlt
      have hspec : spec_fifo_stepO cap (trb_model b) (Op.fifoPush v)
          = (trb_model b ++ [v], none) := by
        simp [spec_fifo_stepO, hlen, hfull]
      refine ⟨hpush.2.1, ?_, ?_⟩
      · show trb_model (trb_fifo_push b v).2 = _
        rw [hspec, hpush.2.2]
      · show (none : Option α) = _
        rw [hspec]
  | fifoForcePush v =>
    by_cases hfull : b.count = cap
    · have hforce := fifo_force_push_full cap h0 b hinv v hfull
      have hspec : spec_fifo_stepO cap (trb_model b) (Op.fifoForcePush v)
          = ((trb_model b).drop 1 ++ [v], none) := by
        simp [spec_fifo_stepO, hlen, hfull]
      refine ⟨hforce.2.1, ?_, ?_⟩
      · show trb_model (trb_fifo_force_push b v) = _
        rw [hspec, hforce.2.2]
      · show (none : Option α) = _
        rw [hspec]
    · have hlt : b.count < cap := by have := hinv.hcount; omega
      have hforce := fifo_force_push_notfull cap h0 hM b hinv v hlt
      have hspec : spec_fifo_stepO cap (trb_model b) (Op.fifoForcePush v)
          = (trb_model b ++ [v], none) := by
        simp [spec_fifo_stepO, hlen, hfull]
      refine ⟨hforce.2.1, ?_, ?_⟩
      · show trb_model (trb_fifo_force_push b v) = _
        rw [hspec, hforce.2.2]
      · show (none : Option α) = _
        rw [hspec]
  | fifoPop =>
    by_cases hemp : b.count = 0
    · have hpop := fifo_pop_empty b (default : α) hemp
      have hq : trb_model b = [] := List.length_eq_zero.mp (by rw [hlen]; exact hemp)
      have hstep : trb_stepO b (Op.fifoPop) = (b, none) := by
        simp [trb_stepO, hpop]
      have hspec : spec_fifo_stepO cap (trb_model b) (Op.fifoPop) = (trb_model b, none) := by
        rw [hq]
        simp [spec_fifo_stepO]
      rw [hstep, hspec]
      exact ⟨hinv, rfl, rfl⟩
    · have hpop := fifo_pop_ok cap h0 hM b hinv (default : α) (by omega)
      have hstep : trb_stepO b (Op.fifoPop)
          = ((trb_fifo_pop b default).2.1, some (trb_fifo_pop b default).2.2) := by
        simp [trb_stepO, hpop.1]
      have hspec : spec_fifo_stepO cap (trb_model b) (Op.fifoPop)
          = ((trb_model b).drop 1, (trb_model b).head?) := rfl
      rw [hstep, hspec]
      exact ⟨hpop.2.1, hpop.2.2.2, hpop.2.2.1⟩
  | fifoPeek =>
    by_cases hemp : b.count = 0
    · have hpeek := fifo_peek_empty b (default : α) hemp
      have hstep : trb_stepO b (Op.fifoPeek) = (b, none) := by
        simp [trb_stepO, hpeek]
      rw [hstep]
      exact ⟨hinv, rfl, rfl⟩
    · have hpeek := fifo_peek_ok cap h0 b hinv (default : α) (by omega)
      have hstep : trb_stepO b (Op.fifoPeek) = (b, none) := by
        simp [trb_stepO, hpeek.1]
      rw [hstep]
      exact ⟨hinv, rfl, rfl⟩
  | flush =>
    have hstep : trb_stepO b (Op.flush) = (trb_flush b, none) := rfl
    rw [hstep]
    exact ⟨flush_inv cap h0 b hinv, trb_model_flush b, rfl⟩
  | lifoPush v => simp [Op.isFifo] at hop
  | lifoPop => simp [Op.isFifo] at hop
  | lifoPeek => simp [Op.isFifo] at hop

/-- A whole FIFO-only run of the buffer simulates the abstract bounded
queue, and the successful pops see exactly the queue's outputs. -/
theorem fifo_run_sim [Inhabited α] (cap : Nat) (h0 : 0 < cap) (hM : cap < SIZE_MOD)
    (ops : List (Op α)) :
    ∀ b : TRB α, FifoInv cap b → FifoOnly ops →
      FifoInv cap (trb_run b ops) ∧
        trb_model (trb_run b ops) = spec_fifo_run cap (trb_model b) ops ∧
        trb_trace b ops = spec_fifo_trace cap (trb_model b) ops := by
  induction ops with
  | nil =>
    intro b hinv _
    exact ⟨hinv, rfl, rfl⟩
  | cons op rest ih =>
    intro b hinv hops
    have hop : op.isFifo = true := hops op (List.mem_cons_self _ _)
    have hrest : FifoOnly rest := fun o ho => hops o (List.mem_cons_of_mem _ ho)
    have hstep := fifo_stepO_sim cap h0 hM b hinv op hop
    have hih := ih (trb_stepO b op).1 hstep.1 hrest
    refine ⟨?_, ?_, ?_⟩
    · show FifoInv cap (trb_run (trb_stepO b op).1 rest)
      exact hih.1
    · show trb_model (trb_run (trb_stepO b op).1 rest)
        = spec_fifo_run cap (spec_fifo_stepO cap (trb_model b) op).1 rest
      rw [hih.2.1, hstep.2.1]
    · show (trb_stepO b op).2.toList ++ trb_trace (trb_stepO b op).1 rest
        = (spec_fifo_stepO cap (trb_model b) op).2.toList ++
            spec_fifo_trace cap (spec_fifo_stepO cap (trb_model b) op).1 rest
      rw [hih.2.2, hstep.2.2, hstep.2.1]

/-! ### The LIFO representation invariant and one-step simulation -/

/-- Representation invariant of a buffer used in LIFO discipline: the
stack pointer `head` always equals `count`, which stays within capacity. -/
structure LifoInv (cap : Nat) (b : TRB α) : Prop where
  hcapacity : b.capacity = cap
  hlen : b.buf.length = cap
  hcount : b.count ≤ cap
  hhead : b.head = b.count

theorem trb_lmodel_length [Inhabited α] (b : TRB α) : (trb_lmodel b).length = b.count := by
  simp [trb_lmodel]

theorem lifoInv_define (d : α) (cap : Nat) : LifoInv cap (trb_define d cap) :=
  ⟨rfl, by simp [trb_define], Nat.zero_le _, rfl⟩

theorem trb_lmodel_define [Inhabited α] (d : α) (cap : Nat) :
    trb_lmodel (trb_define d cap) = [] := by
  simp [trb_lmodel, trb_define]

/-- Successful LIFO push: writes at the stack top, appends to the model. -/
theorem lifo_push_ok [Inhabited α] (cap : Nat) (hM : cap < SIZE_MOD)
    (b : TRB α) (hinv : LifoInv cap b) (v : α) (hnf : b.count < cap) :
    trb_lifo_push b v =
      (0, { b with buf := b.buf.set b.head v,
                   head := b.head + 1,
                   count := b.count + 1 }) ∧
    LifoInv cap (trb_lifo_push b v).2 ∧
    trb_lmodel (trb_lifo_push b v).2 = trb_lmodel b ++ [v] := by
  obtain ⟨hc, hl, hn, hh⟩ := hinv
  have hfull : trb_is_full b = false := by
    simp [trb_is_full]
    omega
  have hcnt : (b.count + 1) % SIZE_MOD = b.count + 1 := size_inc _ (by omega)
  have hhd : (b.head + 1) % SIZE_MOD = b.head + 1 := size_inc _ (by omega)
  have heq : trb_lifo_push b v =
      (0, { b with buf := b.buf.set b.head v,
                   head := b.head + 1,
                   count := b.count + 1 }) := by
    simp [trb_lifo_push, hfull, hcnt, hhd]
  refine ⟨heq, ?_, ?_⟩
  · rw [heq]
    exact ⟨hc, by simpa using hl, by dsimp only; omega, by dsimp only; omega⟩
  · rw [heq]
    dsimp only
    simp only [trb_lmodel]
    rw [List.range_succ, List.map_append]
    congr 1
    · refine List.map_congr_left ?_
      intro i hi
      have hilt : i < b.count := List.mem_range.mp hi
      exact getD_set_ne _ _ _ _ _ (by omega)
    · simp only [List.map_cons, List.map_nil]
      congr 1
      rw [hh]
      exact getD_set_eq _ _ _ _ (by omega)

/-- Failed LIFO push: full buffer, state unchanged, code `-1`. -/
theorem lifo_push_full (b : TRB α) (v : α) (hf : b.count = b.capacity) :
    trb_lifo_push b v = (-1, b) := by
  simp [trb_lifo_push, trb_is_full, hf]

/-- Decomposition of the LIFO model of a nonempty buffer: body plus top. -/
theorem trb_lmodel_concat [Inhabited α] (b : TRB α) (hne : 0 < b.count) :
    trb_lmodel b =
      (List.range (b.count - 1)).map (fun i => b.buf.getD i default) ++
        [b.buf.getD (b.count - 1) default] := by
  obtain ⟨m, hm⟩ : ∃ m, b.count = m + 1 := ⟨b.count - 1, by omega⟩
  simp only [trb_lmodel, hm, List.range_succ, List.map_append, Nat.add_sub_cancel,
    List.map_cons, List.map_nil]

/-- Successful LIFO pop: returns the top of the stack, drops it; the
`size_t` decrement of `head` is an honest decrement (no wraparound). -/
theorem lifo_pop_ok [Inhabited α] (cap : Nat) (hM : cap < SIZE_MOD)
    (b : TRB α) (hinv : LifoInv cap b) (out : α) (hne : 0 < b.count) :
    trb_lifo_pop b out =
      (0, { b with head := b.head - 1, count := b.count - 1 },
       b.buf.getD (b.count - 1) default) ∧
    LifoInv cap (trb_lifo_pop b out).2.1 ∧
    some (trb_lifo_pop b out).2.2 = (trb_lmodel b).getLast? ∧
    trb_lmodel (trb_lifo_pop b out).2.1 = (trb_lmodel b).dropLast := by
  obtain ⟨hc, hl, hn, hh⟩ := hinv
  have hemp : trb_is_empty b = false := by
    simp [trb_is_empty]
    omega
  have hcnt : size_t_dec b.count = b.count - 1 :=
    size_dec _ hne (by omega)
  have hhd : size_t_dec b.head = b.head - 1 :=
    size_dec _ (by omega) (by omega)
  have hidx : b.head - 1 = b.count - 1 := by omega
  have heq : trb_lifo_pop b out =
      (0, { b with head := b.head - 1, count := b.count - 1 },
       b.buf.getD (b.count - 1) default) := by
    simp [trb_lifo_pop, hemp, hcnt, hhd, hidx]
  have hmodel := trb_lmodel_concat b hne
  refine ⟨heq, ?_, ?_, ?_⟩
  · rw [heq]
    exact ⟨hc, hl, by dsimp only; omega, by dsimp only; omega⟩
  · rw [heq, hmodel, List.getLast?_concat]
  · rw [heq, hmodel, List.dropLast_concat]
    dsimp only
    simp only [trb_lmodel]

/-- Failed LIFO pop: empty buffer, state and out-location unchanged. -/
theorem lifo_pop_empty [Inhabited α] (b : TRB α) (out : α) (he : b.count = 0) :
    trb_lifo_pop b out = (-1, b, out) := by
  simp [trb_lifo_pop, trb_is_empty, he]

/-- Successful LIFO peek: returns the top of the stack, changes nothing. -/
theorem lifo_peek_ok [Inhabited α] (cap : Nat) (hM : cap < SIZE_MOD)
    (b : TRB α) (hinv : LifoInv cap b) (out : α) (hne : 0 < b.count) :
    trb_lifo_peek b out = (0, b, b.buf.getD (b.count - 1) default) ∧
    some (trb_lifo_peek b out).2.2 = (trb_lmodel b).getLast? := by
  obtain ⟨hc, hl, hn, hh⟩ := hinv
  have hemp : trb_is_empty b = false := by
    simp [trb_is_empty]
    omega
  have hhd : size_t_dec b.head = b.head - 1 :=
    size_dec _ (by omega) (by omega)
  have hidx : b.head - 1 = b.count - 1 := by omega
  have heq : trb_lifo_peek b out = (0, b, b.buf.getD (b.count - 1) default) := by
    simp [trb_lifo_peek, hemp, hhd, hidx]
  refine ⟨heq, ?_⟩
  rw [heq, trb_lmodel_concat b hne, List.getLast?_concat]

/-- Failed LIFO peek: empty buffer, nothing changes. -/
theorem lifo_peek_empty [Inhabited α] (b : TRB α) (out : α) (he : b.count = 0) :
    trb_lifo_peek b out = (-1, b, out) := by
  simp [trb_lifo_peek, trb_is_empty, he]

theorem lifo_flush_inv (cap : Nat) (b : TRB α) (hinv : LifoInv cap b) :
    LifoInv cap (trb_flush b) :=
  ⟨hinv.hcapacity, hinv.hlen, Nat.zero_le _, rfl⟩

theorem trb_lmodel_flush [Inhabited α] (b : TRB α) : trb_lmodel (trb_flush b) = [] := by
  simp [trb_lmodel, trb_flush]

/-- One LIFO-mode step of the buffer simulates one step of the abstract
bounded stack. -/
theorem lifo_stepO_sim [Inhabited α] (cap : Nat) (hM : cap < SIZE_MOD)
    (b : TRB α) (hinv : LifoInv cap b) (op : Op α) (hop : op.isLifo = true) :
    LifoInv cap (trb_stepO b op).1 ∧
      trb_lmodel (trb_stepO b op).1 = (spec_lifo_stepO cap (trb_lmodel b) op).1 ∧
      (trb_stepO b op).2 = (spec_lifo_stepO cap (trb_lmodel b) op).2 := by
  have hlen : (trb_lmodel b).length = b.count := trb_lmodel_length b
  cases op with
  | lifoPush v =>
    by_cases hfull : b.count = cap
    · have hf' : b.count = b.capacity := by rw [hinv.hcapacity]; exact hfull
      have hpush := lifo_push_full b v hf'
      have hstep : trb_stepO b (Op.lifoPush v) = (b, none) := by
        simp [trb_stepO, hpush]
      have hspec : spec_lifo_stepO cap (trb_lmodel b) (Op.lifoPush v)
          = (trb_lmodel b, none) := by
        simp [spec_lifo_stepO, hlen, hfull]
      rw [hstep, hspec]
      exact ⟨hinv, rfl, rfl⟩
    · have hlt : b.count < cap := by have := hinv.hcount; omega
      have hpush := lifo_push_ok cap hM b hinv v hlt
      have hspec : spec_lifo_stepO cap (trb_lmodel b) (Op.lifoPush v)
          = (trb_lmodel b ++ [v], none) := by
        simp [spec_lifo_stepO, hlen, hfull]
      refine ⟨hpush.2.1, ?_, ?_⟩
      · show trb_lmodel (trb_lifo_push b v).2 = _
        rw [hspec, hpush.2.2]
      · show (none : Option α) = _
        rw [hspec]
  | lifoPop =>
    by_cases hemp : b.count = 0
    · have hpop := lifo_pop_empty b (default : α) hemp
      have hq : trb_lmodel b = [] := List.length_eq_zero.mp (by rw [hlen]; exact hemp)
      have hstep : trb_stepO b (Op.lifoPop) = (b, none) := by
        simp [trb_stepO, hpop]
      have hspec : spec_lifo_stepO cap (trb_lmodel b) (Op.lifoPop)
          = (trb_lmodel b, none) := by
        rw [hq]
        simp [spec_lifo_stepO]
      rw [hstep, hspec]
      exact ⟨hinv, rfl, rfl⟩
    · have hpop := lifo_pop_ok cap hM b hinv (default : α) (by omega)
      have hstep : trb_stepO b (Op.lifoPop)
          = ((trb_lifo_pop b default).2.1, some (trb_lifo_pop b default).2.2) := by
        simp [trb_stepO, hpop.1]
      have hspec : spec_lifo_stepO cap (trb_lmodel b) (Op.lifoPop)
          = ((trb_lmodel b).dropLast, (trb_lmodel b).getLast?) := rfl
      rw [hstep, hspec]
      exact ⟨hpop.2.1, hpop.2.2.2, hpop.2.2.1⟩
  | lifoPeek =>
    by_cases hemp : b.count = 0
    · have hpeek := lifo_peek_empty b (default : α) hemp
      have hstep : trb_stepO b (Op.lifoPeek) = (b, none) := by
        simp [trb_stepO, hpeek]
      rw [hstep]
      exact ⟨hinv, rfl, rfl⟩
    · have hpeek := lifo_peek_ok cap hM b hinv (default : α) (by omega)
      have hstep : trb_stepO b (Op.lifoPeek) = (b, none) := by
        simp [trb_stepO, hpeek.1]
      rw [hstep]
      exact ⟨hinv, rfl, rfl⟩
  | flush =>
    have hstep : trb_stepO b (Op.flush) = (trb_flush b, none) := rfl
    rw [hstep]
    exact ⟨lifo_flush_inv cap b hinv, trb_lmodel_flush b, rfl⟩
  | fifoPush v => simp [Op.isLifo] at hop
  | fifoForcePush v => simp [Op.isLifo] at hop
  | fifoPop => simp [Op.isLifo] at hop
  | fifoPeek => simp [Op.isLifo] at hop

/-- A whole LIFO-only run of the buffer simulates the abstract bounded
stack, and the successful pops see exactly the stack's outputs. -/
theorem lifo_run_sim [Inhabited α] (cap : Nat) (hM : cap < SIZE_MOD)
    (ops : List (Op α)) :
    ∀ b : TRB α, LifoInv cap b → LifoOnly ops →
      LifoInv cap (trb_run b ops) ∧
        trb_lmodel (trb_run b ops) = spec_lifo_run cap (trb_lmodel b) ops ∧
        trb_trace b ops = spec_lifo_trace cap (trb_lmodel b) ops := by
  induction ops with
  | nil =>
    intro b hinv _
    exact ⟨hinv, rfl, rfl⟩
  | cons op rest ih =>
    intro b hinv hops
    have hop : op.isLifo = true := hops op (List.mem_cons_self _ _)
    have hrest : LifoOnly rest := fun o ho => hops o (List.mem_cons_of_mem _ ho)
    have hstep := lifo_stepO_sim cap hM b hinv op hop
    have hih := ih (trb_stepO b op).1 hstep.1 hrest
    refine ⟨?_, ?_, ?_⟩
    · show LifoInv cap (trb_run (trb_stepO b op).1 rest)
      exact hih.1
    · show trb_lmodel (trb_run (trb_stepO b op).1 rest)
        = spec_lifo_run cap (spec_lifo_stepO cap (trb_lmodel b) op).1 rest
      rw [hih.2.1, hstep.2.1]
    · show (trb_stepO b op).2.toList ++ trb_trace (trb_stepO b op).1 rest
        = (spec_lifo_stepO cap (trb_lmodel b) op).2.toList ++
            spec_lifo_trace cap (spec_lifo_stepO cap (trb_lmodel b) op).1 rest
      rw [hih.2.2, hstep.2.2, hstep.2.1]

/-! ### Mixed-mode lemmas: capacity constancy and the count bound -/

/-- Branch-free equation for a non-full FIFO push, no invariant assumed. -/
theorem fifo_push_notfull_eq (b : TRB α) (v : α) (hf : b.count ≠ b.capacity) :
    trb_fifo_push b v =
      (0, { b with buf := b.buf.set b.tail v,
                   tail := (b.tail + 1) % b.capacity,
                   count := (b.count + 1) % SIZE_MOD }) := by
  have hfull : trb_is_full b = false := by
    simp [trb_is_full]
    omega
  simp [trb_fifo_push, hfull]

/-- Branch-free equation for a force push into a full buffer. -/
theorem fifo_force_push_full_eq (b : TRB α) (v : α) (hf : b.count = b.capacity) :
    trb_fifo_force_push b v =
      { b with buf := b.buf.set b.tail v,
               tail := (b.tail + 1) % b.capacity,
               head := (b.head + 1) % b.capacity } := by
  simp [trb_fifo_force_push, trb_is_full, hf]

/-- Branch-free equation for a force push into a non-full buffer. -/
theorem fifo_force_push_notfull_eq (b : TRB α) (v : α) (hf : b.count ≠ b.capacity) :
    trb_fifo_force_push b v =
      { b with buf := b.buf.set b.tail v,
               tail := (b.tail + 1) % b.capacity,
               count := (b.count + 1) % SIZE_MOD } := by
  have hcond : (b.count == b.capacity) = false := by
    simp
    omega
  simp [trb_fifo_force_push, trb_is_full, hcond]

/-- Branch-free equation for a non-empty FIFO pop, no invariant assumed. -/
theorem fifo_pop_notempty_eq [Inhabited α] (b : TRB α) (out : α) (he : b.count ≠ 0) :
    trb_fifo_pop b out =
      (0, { b with head := (b.head + 1) % b.capacity,
                   count := size_t_dec b.count },
       b.buf.getD b.head default) := by
  have hemp : trb_is_empty b = false := by
    simp [trb_is_empty]
    omega
  simp [trb_fifo_pop, hemp]

/-- Branch-free equation for a non-empty FIFO peek. -/
theorem fifo_peek_notempty_eq [Inhabited α] (b : TRB α) (out : α) (he : b.count ≠ 0) :
    trb_fifo_peek b out = (0, b, b.buf.getD b.head default) := by
  have hemp : trb_is_empty b = false := by
    simp [trb_is_empty]
    omega
  simp [trb_fifo_peek, hemp]

/-- FIFO peek never changes the buffer state. -/
theorem fifo_peek_state [Inhabited α] (b : TRB α) (out : α) :
    (trb_fifo_peek b out).2.1 = b := by
  by_cases he : b.count = 0
  · rw [fifo_peek_empty b out he]
  · rw [fifo_peek_notempty_eq b out he]

/-- Branch-free equation for a non-full LIFO push, no invariant assumed. -/
theorem lifo_push_notfull_eq (b : TRB α) (v : α) (hf : b.count ≠ b.capacity) :
    trb_lifo_push b v =
      (0, { b with buf := b.buf.set b.head v,
                   head := (b.head + 1) % SIZE_MOD,
                   count := (b.count + 1) % SIZE_MOD }) := by
  have hfull : trb_is_full b = false := by
    simp [trb_is_full]
    omega
  simp [trb_lifo_push, hfull]

/-- Branch-free equation for a non-empty LIFO pop, no invariant assumed. -/
theorem lifo_pop_notempty_eq [Inhabited α] (b : TRB α) (out : α) (he : b.count ≠ 0) :
    trb_lifo_pop b out =
      (0, { b with head := size_t_dec b.head,
                   count := size_t_dec b.count },
       b.buf.getD (size_t_dec b.head) default) := by
  have hemp : trb_is_empty b = false := by
    simp [trb_is_empty]
    omega
  simp [trb_lifo_pop, hemp]

/-- Branch-free equation for a non-empty LIFO peek. -/
theorem lifo_peek_notempty_eq [Inhabited α] (b : TRB α) (out : α) (he : b.count ≠ 0) :
    trb_lifo_peek b out =
      (0, b, b.buf.getD (size_t_dec b.head) default) := by
  have hemp : trb_is_empty b = false := by
    simp [trb_is_empty]
    omega
  simp [trb_lifo_peek, hemp]

/-- LIFO peek never changes the buffer state. -/
theorem lifo_peek_state [Inhabited α] (b : TRB α) (out : α) :
    (trb_lifo_peek b out).2.1 = b := by
  by_cases he : b.count = 0
  · rw [lifo_peek_empty b out he]
  · rw [lifo_peek_notempty_eq b out he]

/-- No operation ever changes the `capacity` field. -/
theorem stepO_capacity [Inhabited α] (b : TRB α) (op : Op α) :
    (trb_stepO b op).1.capacity = b.capacity := by
  cases op with
  | fifoPush v =>
    show (trb_fifo_push b v).2.capacity = b.capacity
    by_cases hf : b.count = b.capacity
    · simp only [fifo_push_full b v hf]
    · simp only [fifo_push_notfull_eq b v hf]
  | fifoForcePush v =>
    show (trb_fifo_force_push b v).capacity = b.capacity
    by_cases hf : b.count = b.capacity
    · simp only [fifo_force_push_full_eq b v hf]
    · simp only [fifo_force_push_notfull_eq b v hf]
  | fifoPop =>
    show (trb_fifo_pop b default).2.1.capacity = b.capacity
    by_cases he : b.count = 0
    · simp only [fifo_pop_empty b default he]
    · simp only [fifo_pop_notempty_eq b default he]
  | fifoPeek =>
    show (trb_fifo_peek b default).2.1.capacity = b.capacity
    simp only [fifo_peek_state]
  | lifoPush v =>
    show (trb_lifo_push b v).2.capacity = b.capacity
    by_cases hf : b.count = b.capacity
    · simp only [lifo_push_full b v hf]
    · simp only [lifo_push_notfull_eq b v hf]
  | lifoPop =>
    show (trb_lifo_pop b default).2.1.capacity = b.capacity
    by_cases he : b.count = 0
    · simp only [lifo_pop_empty b default he]
    · simp only [lifo_pop_notempty_eq b default he]
  | lifoPeek =>
    show (trb_lifo_peek b default).2.1.capacity = b.capacity
    simp only [lifo_peek_state]
  | flush => rfl

/-- One arbitrary operation preserves `count <= capacity`. -/
theorem stepO_count_le [Inhabited α] (b : TRB α) (hM : b.capacity < SIZE_MOD)
    (hc : b.count ≤ b.capacity) (op : Op α) :
    (trb_stepO b op).1.count ≤ (trb_stepO b op).1.capacity := by
  rw [stepO_capacity]
  cases op with
  | fifoPush v =>
    show (trb_fifo_push b v).2.count ≤ b.capacity
    by_cases hf : b.count = b.capacity
    · simp only [fifo_push_full b v hf]
      exact hc
    · simp only [fifo_push_notfull_eq b v hf]
      have hmle := Nat.mod_le (b.count + 1) SIZE_MOD
      omega
  | fifoForcePush v =>
    show (trb_fifo_force_push b v).count ≤ b.capacity
    by_cases hf : b.count = b.capacity
    · simp only [fifo_force_push_full_eq b v hf]
      exact hc
    · simp only [fifo_force_push_notfull_eq b v hf]
      have hmle := Nat.mod_le (b.count + 1) SIZE_MOD
      omega
  | fifoPop =>
    show (trb_fifo_pop b default).2.1.count ≤ b.capacity
    by_cases he : b.count = 0
    · simp only [fifo_pop_empty b default he]
      exact hc
    · simp only [fifo_pop_notempty_eq b default he]
      rw [size_dec _ (by omega) (by omega)]
      omega
  | fifoPeek =>
    show (trb_fifo_peek b default).2.1.count ≤ b.capacity
    simp only [fifo_peek_state]
    exact hc
  | lifoPush v =>
    show (trb_lifo_push b v).2.count ≤ b.capacity
    by_cases hf : b.count = b.capacity
    · simp only [lifo_push_full b v hf]
      exact hc
    · simp only [lifo_push_notfull_eq b v hf]
      have hmle := Nat.mod_le (b.count + 1) SIZE_MOD
      omega
  | lifoPop =>
    show (trb_lifo_pop b default).2.1.count ≤ b.capacity
    by_cases he : b.count = 0
    · simp only [lifo_pop_empty b default he]
      exact hc
    · simp only [lifo_pop_notempty_eq b default he]
      rw [size_dec _ (by omega) (by omega)]
      omega
  | lifoPeek =>
    show (trb_lifo_peek b default).2.1.count ≤ b.capacity
    simp only [lifo_peek_state]
    exact hc
  | flush => exact Nat.zero_le _

theorem run_capacity [Inhabited α] (ops : List (Op α)) :
    ∀ b : TRB α, (trb_run b ops).capacity = b.capacity := by
  induction ops with
  | nil => intro b; rfl
  | cons op rest ih =>
    intro b
    show (trb_run (trb_stepO b op).1 rest).capacity = b.capacity
    rw [ih, stepO_capacity]

theorem run_count_le [Inhabited α] (ops : List (Op α)) :
    ∀ b : TRB α, b.capacity < SIZE_MOD → b.count ≤ b.capacity →
      (trb_run b ops).count ≤ (trb_run b ops).capacity := by
  induction ops with
  | nil =>
    intro b _ hc
    exact hc
  | cons op rest ih =>
    intro b hM hc
    show (trb_run (trb_stepO b op).1 rest).count ≤ (trb_run (trb_stepO b op).1 rest).capacity
    refine ih (trb_stepO b op).1 ?_ ?_
    · rw [stepO_capacity]
      exact hM
    · exact stepO_count_le b hM hc op

/-! ### The claims -/

/-- C4: Capacity invariant — for every sequence of operations (any
interleaving of the FIFO operations, the LIFO operations, flush, and the
queries, which are pure reads) starting from the initial state,
`0 <= count <= capacity` holds at every point (every prefix of a
sequence is itself a sequence, so quantifying over all sequences covers
every intermediate point). -/
theorem capacity_invariant_correct {α : Type} [Inhabited α] (d : α) (cap : Nat)
    (hM : cap < SIZE_MOD) (ops : List (Op α)) :
    0 ≤ (trb_run (trb_define d cap) ops).count ∧
      (trb_run (trb_define d cap) ops).count ≤ cap := by
  refine ⟨Nat.zero_le _, ?_⟩
  have h := run_count_le ops (trb_define d cap) hM (Nat.zero_le _)
  rw [run_capacity] at h
  exact h

/-- Witness for C4: a mixed FIFO/LIFO/flush sequence on a capacity-2
buffer stays within capacity. -/
theorem capacity_invariant_witness :
    2 < SIZE_MOD ∧
    (0 ≤ (trb_run (trb_define (0 : Nat) 2)
            [Op.fifoPush 5, Op.lifoPush 6, Op.fifoForcePush 7, Op.fifoPop,
             Op.flush, Op.lifoPush 8]).count ∧
     (trb_run (trb_define (0 : Nat) 2)
        [Op.fifoPush 5, Op.lifoPush 6, Op.fifoForcePush 7, Op.fifoPop,
         Op.flush, Op.lifoPush 8]).count ≤ 2) :=
  ⟨by decide,
   capacity_invariant_correct 0 2 (by decide)
     [Op.fifoPush 5, Op.lifoPush 6, Op.fifoForcePush 7, Op.fifoPop,
      Op.flush, Op.lifoPush 8]⟩

/-- C5: Full rejection with atomicity — on any state with
`count == capacity`, `trb_fifo_push` and `trb_lifo_push` both return the
`-1` (Full) code and return the state entirely unchanged (same `head`,
`tail`, `count` and slot contents); these are the only push variants
besides `trb_fifo_force_push`, so no push variant other than the force
variant succeeds on a full buffer. -/
theorem full_rejection_correct {α : Type} (b : TRB α) (v w : α)
    (hf : b.count = b.capacity) :
    trb_fifo_push b v = (-1, b) ∧ trb_lifo_push b w = (-1, b) :=
  ⟨fifo_push_full b v hf, lifo_push_full b w hf⟩

/-- Witness for C5: a full capacity-1 buffer rejects both pushes. -/
theorem full_rejection_witness :
    (trb_run (trb_define (0 : Nat) 1) [Op.fifoPush 9]).count
      = (trb_run (trb_define (0 : Nat) 1) [Op.fifoPush 9]).capacity ∧
    (trb_fifo_push (trb_run (trb_define (0 : Nat) 1) [Op.fifoPush 9]) 5
       = (-1, trb_run (trb_define (0 : Nat) 1) [Op.fifoPush 9]) ∧
     trb_lifo_push (trb_run (trb_define (0 : Nat) 1) [Op.fifoPush 9]) 6
       = (-1, trb_run (trb_define (0 : Nat) 1) [Op.fifoPush 9])) :=
  ⟨by decide,
   full_rejection_correct (trb_run (trb_define (0 : Nat) 1) [Op.fifoPush 9])
     5 6 (by decide)⟩

/-- C6: Empty rejection with atomicity — on any state with `count == 0`,
each of `trb_fifo_pop`, `trb_fifo_peek`, `trb_lifo_pop` and
`trb_lifo_peek` returns the `-1` (Empty) code, leaves the whole buffer
state unchanged, and leaves the caller's out-location unchanged. -/
theorem empty_rejection_correct {α : Type} [Inhabited α] (b : TRB α) (out : α)
    (he : b.count = 0) :
    trb_fifo_pop b out = (-1, b, out) ∧
    trb_fifo_peek b out = (-1, b, out) ∧
    trb_lifo_pop b out = (-1, b, out) ∧
    trb_lifo_peek b out = (-1, b, out) :=
  ⟨fifo_pop_empty b out he, fifo_peek_empty b out he,
   lifo_pop_empty b out he, lifo_peek_empty b out he⟩

/-- Witness for C6: an emptied capacity-2 buffer rejects pops and peeks,
leaving the out-location `7` alone. -/
theorem empty_rejection_witness :
    (trb_run (trb_define (0 : Nat) 2) [Op.fifoPush 4, Op.fifoPop]).count = 0 ∧
    (trb_fifo_pop (trb_run (trb_define (0 : Nat) 2) [Op.fifoPush 4, Op.fifoPop]) 7
       = (-1, trb_run (trb_define (0 : Nat) 2) [Op.fifoPush 4, Op.fifoPop], 7) ∧
     trb_fifo_peek (trb_run (trb_define (0 : Nat) 2) [Op.fifoPush 4, Op.fifoPop]) 7
       = (-1, trb_run (trb_define (0 : Nat) 2) [Op.fifoPush 4, Op.fifoPop], 7) ∧
     trb_lifo_pop (trb_run (trb_define (0 : Nat) 2) [Op.fifoPush 4, Op.fifoPop]) 7
       = (-1, trb_run (trb_define (0 : Nat) 2) [Op.fifoPush 4, Op.fifoPop], 7) ∧
     trb_lifo_peek (trb_run (trb_define (0 : Nat) 2) [Op.fifoPush 4, Op.fifoPop]) 7
       = (-1, trb_run (trb_define (0 : Nat) 2) [Op.fifoPush 4, Op.fifoPop], 7)) :=
  ⟨by decide,
   empty_rejection_correct
     (trb_run (trb_define (0 : Nat) 2) [Op.fifoPush 4, Op.fifoPop]) 7 (by decide)⟩

/-- C7: Flush resets — on any buffer state, `trb_flush` sets
`head = tail = count = 0` without erasing slot contents; flush is
idempotent; and a push immediately after flush succeeds and writes to
slot 0, the same slot as the first push on a freshly constructed buffer
of the same capacity (capacity positive, as every declared buffer is). -/
theorem flush_reset_correct {α : Type} [Inhabited α] (b : TRB α) (d v : α)
    (h0 : 0 < b.capacity) :
    (trb_flush b).head = 0 ∧ (trb_flush b).tail = 0 ∧ (trb_flush b).count = 0 ∧
    (trb_flush b).buf = b.buf ∧
    trb_flush (trb_flush b) = trb_flush b ∧
    (trb_fifo_push (trb_flush b) v).1 = 0 ∧
    (trb_fifo_push (trb_flush b) v).2.buf = b.buf.set 0 v ∧
    (trb_fifo_push (trb_define d b.capacity) v).1 = 0 ∧
    (trb_fifo_push (trb_define d b.capacity) v).2.buf
      = (List.replicate b.capacity d).set 0 v := by
  have hne1 : (trb_flush b).count ≠ (trb_flush b).capacity := by
    show (0 : Nat) ≠ b.capacity
    omega
  have hne2 : (trb_define d b.capacity).count ≠ (trb_define d b.capacity).capacity := by
    show (0 : Nat) ≠ b.capacity
    omega
  have hp1 := fifo_push_notfull_eq (trb_flush b) v hne1
  have hp2 := fifo_push_notfull_eq (trb_define d b.capacity) v hne2
  refine ⟨rfl, rfl, rfl, rfl, rfl, ?_, ?_, ?_, ?_⟩
  · simp only [hp1]
  · simp only [hp1]
    simp only [trb_flush]
  · simp only [hp2]
  · simp only [hp2]
    simp only [trb_define]

/-- Witness for C7 on a dirty capacity-2 state. -/
theorem flush_reset_witness :
    0 < (TRB.mk [1, 2] 2 1 1 1 : TRB Nat).capacity ∧
    ((trb_flush (TRB.mk [1, 2] 2 1 1 1 : TRB Nat)).head = 0 ∧
     (trb_flush (TRB.mk [1, 2] 2 1 1 1 : TRB Nat)).tail = 0 ∧
     (trb_flush (TRB.mk [1, 2] 2 1 1 1 : TRB Nat)).count = 0 ∧
     (trb_flush (TRB.mk [1, 2] 2 1 1 1 : TRB Nat)).buf
       = (TRB.mk [1, 2] 2 1 1 1 : TRB Nat).buf ∧
     trb_flush (trb_flush (TRB.mk [1, 2] 2 1 1 1 : TRB Nat))
       = trb_flush (TRB.mk [1, 2] 2 1 1 1 : TRB Nat) ∧
     (trb_fifo_push (trb_flush (TRB.mk [1, 2] 2 1 1 1 : TRB Nat)) 9).1 = 0 ∧
     (trb_fifo_push (trb_flush (TRB.mk [1, 2] 2 1 1 1 : TRB Nat)) 9).2.buf
       = (TRB.mk [1, 2] 2 1 1 1 : TRB Nat).buf.set 0 9 ∧
     (trb_fifo_push (trb_define 0 (TRB.mk [1, 2] 2 1 1 1 : TRB Nat).capacity) 9).1 = 0 ∧
     (trb_fifo_push (trb_define 0 (TRB.mk [1, 2] 2 1 1 1 : TRB Nat).capacity) 9).2.buf
       = (List.replicate (TRB.mk [1, 2] 2 1 1 1 : TRB Nat).capacity 0).set 0 9) :=
  ⟨by decide, flush_reset_correct (TRB.mk [1, 2] 2 1 1 1) 0 9 (by decide)⟩

/-- C8: Peek idempotence — on any non-empty state, two successive
`trb_fifo_peek` calls (the second fed the first call's outputs, with no
intervening mutation) both succeed, return the identical value, and
neither changes the buffer state; likewise for `trb_lifo_peek`. -/
theorem peek_idempotent_correct {α : Type} [Inhabited α] (b : TRB α) (out : α)
    (hne : b.count ≠ 0) :
    ((trb_fifo_peek b out).1 = 0 ∧
     (trb_fifo_peek b out).2.1 = b ∧
     (trb_fifo_peek (trb_fifo_peek b out).2.1 ((trb_fifo_peek b out).2.2)).1 = 0 ∧
     (trb_fifo_peek (trb_fifo_peek b out).2.1 ((trb_fifo_peek b out).2.2)).2.1 = b ∧
     (trb_fifo_peek (trb_fifo_peek b out).2.1 ((trb_fifo_peek b out).2.2)).2.2
       = (trb_fifo_peek b out).2.2) ∧
    ((trb_lifo_peek b out).1 = 0 ∧
     (trb_lifo_peek b out).2.1 = b ∧
     (trb_lifo_peek (trb_lifo_peek b out).2.1 ((trb_lifo_peek b out).2.2)).1 = 0 ∧
     (trb_lifo_peek (trb_lifo_peek b out).2.1 ((trb_lifo_peek b out).2.2)).2.1 = b ∧
     (trb_lifo_peek (trb_lifo_peek b out).2.1 ((trb_lifo_peek b out).2.2)).2.2
       = (trb_lifo_peek b out).2.2) := by
  have hf1 := fifo_peek_notempty_eq b out hne
  have hf2 := fifo_peek_notempty_eq b (b.buf.getD b.head default) hne
  have hl1 := lifo_peek_notempty_eq b out hne
  have hl2 := lifo_peek_notempty_eq b (b.buf.getD (size_t_dec b.head) default) hne
  refine ⟨⟨?_, ?_, ?_, ?_, ?_⟩, ⟨?_, ?_, ?_, ?_, ?_⟩⟩ <;>
    simp only [hf1, hf2, hl1, hl2]

/-- Witness for C8 on a two-element capacity-3 buffer. -/
theorem peek_idempotent_witness :
    (trb_run (trb_define (0 : Nat) 3) [Op.fifoPush 4, Op.fifoPush 5]).count ≠ 0 ∧
    (((trb_fifo_peek (trb_run (trb_define (0 : Nat) 3)
         [Op.fifoPush 4, Op.fifoPush 5]) 0).1 = 0 ∧
      (trb_fifo_peek (trb_run (trb_define (0 : Nat) 3)
         [Op.fifoPush 4, Op.fifoPush 5]) 0).2.1
        = trb_run (trb_define (0 : Nat) 3) [Op.fifoPush 4, Op.fifoPush 5] ∧
      (trb_fifo_peek
         (trb_fifo_peek (trb_run (trb_define (0 : Nat) 3)
            [Op.fifoPush 4, Op.fifoPush 5]) 0).2.1
         ((trb_fifo_peek (trb_run (trb_define (0 : Nat) 3)
             [Op.fifoPush 4, Op.fifoPush 5]) 0).2.2)).1 = 0 ∧
      (trb_fifo_peek
         (trb_fifo_peek (trb_run (trb_define (0 : Nat) 3)
            [Op.fifoPush 4, Op.fifoPush 5]) 0).2.1
         ((trb_fifo_peek (trb_run (trb_define (0 : Nat) 3)
             [Op.fifoPush 4, Op.fifoPush 5]) 0).2.2)).2.1
        = trb_run (trb_define (0 : Nat) 3) [Op.fifoPush 4, Op.fifoPush 5] ∧
      (trb_fifo_peek
         (trb_fifo_peek (trb_run (trb_define (0 : Nat) 3)
            [Op.fifoPush 4, Op.fifoPush 5]) 0).2.1
         ((trb_fifo_peek (trb_run (trb_define (0 : Nat) 3)
             [Op.fifoPush 4, Op.fifoPush 5]) 0).2.2)).2.2
        = (trb_fifo_peek (trb_run (trb_define (0 : Nat) 3)
            [Op.fifoPush 4, Op.fifoPush 5]) 0).2.2) ∧
     ((trb_lifo_peek (trb_run (trb_define (0 : Nat) 3)
         [Op.fifoPush 4, Op.fifoPush 5]) 0).1 = 0 ∧
      (trb_lifo_peek (trb_run (trb_define (0 : Nat) 3)
         [Op.fifoPush 4, Op.fifoPush 5]) 0).2.1
        = trb_run (trb_define (0 : Nat) 3) [Op.fifoPush 4, Op.fifoPush 5] ∧
      (trb_lifo_peek
         (trb_lifo_peek (trb_run (trb_define (0 : Nat) 3)
            [Op.fifoPush 4, Op.fifoPush 5]) 0).2.1
         ((trb_lifo_peek (trb_run (trb_define (0 : Nat) 3)
             [Op.fifoPush 4, Op.fifoPush 5]) 0).2.2)).1 = 0 ∧
      (trb_lifo_peek
         (trb_lifo_peek (trb_run (trb_define (0 : Nat) 3)
            [Op.fifoPush 4, Op.fifoPush 5]) 0).2.1
         ((trb_lifo_peek (trb_run (trb_define (0 : Nat) 3)
             [Op.fifoPush 4, Op.fifoPush 5]) 0).2.2)).2.1
        = trb_run (trb_define (0 : Nat) 3) [Op.fifoPush 4, Op.fifoPush 5] ∧
      (trb_lifo_peek
         (trb_lifo_peek (trb_run (trb_define (0 : Nat) 3)
            [Op.fifoPush 4, Op.fifoPush 5]) 0).2.1
         ((trb_lifo_peek (trb_run (trb_define (0 : Nat) 3)
             [Op.fifoPush 4, Op.fifoPush 5]) 0).2.2)).2.2
        = (trb_lifo_peek (trb_run (trb_define (0 : Nat) 3)
            [Op.fifoPush 4, Op.fifoPush 5]) 0).2.2)) :=
  ⟨by decide,
   peek_idempotent_correct
     (trb_run (trb_define (0 : Nat) 3) [Op.fifoPush 4, Op.fifoPush 5]) 0 (by decide)⟩

/-- C9 counterexample: the claim quantifies over every operation
sequence, but mixing disciplines breaks it — on a capacity-1 buffer,
`lifo_push` (which increments `head` without wraparound) followed by the
FIFO-mode operation `fifo_push` (which, rejecting the full buffer,
leaves `head` untouched) ends with `head = 1 = capacity`, so
`0 <= head < capacity` fails right after a FIFO-mode operation. -/
theorem head_range_counterexample :
    (trb_run (trb_define (0 : Nat) 1) [Op.lifoPush 7, Op.fifoPush 8]).head
      = (trb_run (trb_define (0 : Nat) 1) [Op.lifoPush 7, Op.fifoPush 8]).capacity ∧
    ¬ ((trb_run (trb_define (0 : Nat) 1) [Op.lifoPush 7, Op.fifoPush 8]).head
       < (trb_run (trb_define (0 : Nat) 1) [Op.lifoPush 7, Op.fifoPush 8]).capacity) := by
  decide

/-- C9 (amended): restricted to sequences of a single discipline — over
FIFO-only operation sequences `0 <= head < capacity` holds after every
operation, and over LIFO-only sequences `head` stays within
`[0, capacity]` (every prefix of a sequence is itself a sequence, so
this covers every intermediate point). -/
theorem head_range_amended {α : Type} [Inhabited α] (d : α) (cap : Nat)
    (h0 : 0 < cap) (hM : cap < SIZE_MOD) (ops : List (Op α)) :
    (FifoOnly ops → (trb_run (trb_define d cap) ops).head < cap) ∧
    (LifoOnly ops → (trb_run (trb_define d cap) ops).head ≤ cap) := by
  constructor
  · intro hops
    exact (fifo_run_sim cap h0 hM ops (trb_define d cap)
      (fifoInv_define d cap h0) hops).1.hhead
  · intro hops
    have h := (lifo_run_sim cap hM ops (trb_define d cap)
      (lifoInv_define d cap) hops).1
    rw [h.hhead]
    exact h.hcount

/-- Witness for the amended C9 at capacity 2. -/
theorem head_range_amended_witness :
    0 < 2 ∧ 2 < SIZE_MOD ∧
    ((FifoOnly [Op.fifoPush 5, Op.fifoPop, Op.fifoPush (6 : Nat)] →
        (trb_run (trb_define (0 : Nat) 2)
          [Op.fifoPush 5, Op.fifoPop, Op.fifoPush 6]).head < 2) ∧
     (LifoOnly [Op.fifoPush 5, Op.fifoPop, Op.fifoPush (6 : Nat)] →
        (trb_run (trb_define (0 : Nat) 2)
          [Op.fifoPush 5, Op.fifoPop, Op.fifoPush 6]).head ≤ 2)) :=
  ⟨by decide, by decide,
   head_range_amended 0 2 (by decide) (by decide)
     [Op.fifoPush 5, Op.fifoPop, Op.fifoPush 6]⟩

/-- C10: Implicit LIFO safety invariant — over every sequence of
`lifo_push`, `lifo_pop`, `lifo_peek` and `flush` (the queries are pure
reads) from the initial state, `head = count` holds after every
operation, so every storage access is in bounds: a succeeding
`lifo_push` (guarded by `count < capacity`) writes index `head` with
`head < capacity`, and a succeeding `lifo_pop`/`lifo_peek` (guarded by
`count > 0`) reads index `head - 1` with `1 <= head`, so the `size_t`
decrement of `head` is an honest decrement and never underflows. -/
theorem lifo_safety_correct {α : Type} [Inhabited α] (d : α) (cap : Nat)
    (hM : cap < SIZE_MOD) (ops : List (Op α)) (hops : LifoOnly ops) :
    (trb_run (trb_define d cap) ops).head = (trb_run (trb_define d cap) ops).count ∧
    (trb_run (trb_define d cap) ops).count ≤ cap ∧
    ((trb_run (trb_define d cap) ops).count < cap →
       (trb_run (trb_define d cap) ops).head < cap) ∧
    (0 < (trb_run (trb_define d cap) ops).count →
       1 ≤ (trb_run (trb_define d cap) ops).head ∧
       (trb_run (trb_define d cap) ops).head - 1 < cap ∧
       size_t_dec (trb_run (trb_define d cap) ops).head
         = (trb_run (trb_define d cap) ops).head - 1 ∧
       (trb_lifo_pop (trb_run (trb_define d cap) ops) d).2.1.head
         = (trb_run (trb_define d cap) ops).head - 1) := by
  have h := (lifo_run_sim cap hM ops (trb_define d cap) (lifoInv_define d cap) hops).1
  have hh := h.hhead
  have hc := h.hcount
  refine ⟨hh, hc, ?_, ?_⟩
  · intro hlt
    rw [hh]
    exact hlt
  · intro hpos
    have h1 : 1 ≤ (trb_run (trb_define d cap) ops).head := by
      rw [hh]
      omega
    have h3 : size_t_dec (trb_run (trb_define d cap) ops).head
        = (trb_run (trb_define d cap) ops).head - 1 :=
      size_dec _ (by omega) (by rw [hh]; omega)
    refine ⟨h1, by rw [hh]; omega, h3, ?_⟩
    have hp := lifo_pop_notempty_eq (trb_run (trb_define d cap) ops) d (by omega)
    simp only [hp]
    exact h3

/-- Witness for C10: a LIFO-only run on a capacity-2 buffer. -/
theorem lifo_safety_witness :
    2 < SIZE_MOD ∧
    LifoOnly [Op.lifoPush 4, Op.lifoPush 5, Op.lifoPop, Op.lifoPush (6 : Nat)] ∧
    ((trb_run (trb_define (0 : Nat) 2)
        [Op.lifoPush 4, Op.lifoPush 5, Op.lifoPop, Op.lifoPush 6]).head
       = (trb_run (trb_define (0 : Nat) 2)
           [Op.lifoPush 4, Op.lifoPush 5, Op.lifoPop, Op.lifoPush 6]).count ∧
     (trb_run (trb_define (0 : Nat) 2)
        [Op.lifoPush 4, Op.lifoPush 5, Op.lifoPop, Op.lifoPush 6]).count ≤ 2 ∧
     ((trb_run (trb_define (0 : Nat) 2)
         [Op.lifoPush 4, Op.lifoPush 5, Op.lifoPop, Op.lifoPush 6]).count < 2 →
        (trb_run (trb_define (0 : Nat) 2)
          [Op.lifoPush 4, Op.lifoPush 5, Op.lifoPop, Op.lifoPush 6]).head < 2) ∧
     (0 < (trb_run (trb_define (0 : Nat) 2)
             [Op.lifoPush 4, Op.lifoPush 5, Op.lifoPop, Op.lifoPush 6]).count →
        1 ≤ (trb_run (trb_define (0 : Nat) 2)
              [Op.lifoPush 4, Op.lifoPush 5, Op.lifoPop, Op.lifoPush 6]).head ∧
        (trb_run (trb_define (0 : Nat) 2)
           [Op.lifoPush 4, Op.lifoPush 5, Op.lifoPop, Op.lifoPush 6]).head - 1 < 2 ∧
        size_t_dec (trb_run (trb_define (0 : Nat) 2)
            [Op.lifoPush 4, Op.lifoPush 5, Op.lifoPop, Op.lifoPush 6]).head
          = (trb_run (trb_define (0 : Nat) 2)
              [Op.lifoPush 4, Op.lifoPush 5, Op.lifoPop, Op.lifoPush 6]).head - 1 ∧
        (trb_lifo_pop (trb_run (trb_define (0 : Nat) 2)
            [Op.lifoPush 4, Op.lifoPush 5, Op.lifoPop, Op.lifoPush 6]) 0).2.1.head
          = (trb_run (trb_define (0 : Nat) 2)
              [Op.lifoPush 4, Op.lifoPush 5, Op.lifoPop, Op.lifoPush 6]).head - 1)) :=
  ⟨by decide, by decide,
   lifo_safety_correct 0 2 (by decide)
     [Op.lifoPush 4, Op.lifoPush 5, Op.lifoPop, Op.lifoPush 6] (by decide)⟩

/-- C1: FIFO ordering — for every element type, every capacity of at
least 3 and all values `v1, v2, v3`: pushing them in order with
`trb_fifo_push` into a fresh buffer succeeds three times and three
`trb_fifo_pop` calls then succeed and deliver `v1, v2, v3` in that
order.  More generally, over every FIFO-only operation sequence from the
initial state, the successful pops deliver exactly the outputs of the
abstract bounded queue of the same capacity (`spec_fifo_trace`): the Nth
successful pop returns the Nth successfully pushed value not yet popped,
with force-push overwrites retiring the oldest unread element. -/
theorem fifo_ordering_correct {α : Type} [Inhabited α] (cap : Nat)
    (h3 : 3 ≤ cap) (hM : cap < SIZE_MOD) (v1 v2 v3 : α) :
    (let b0 := trb_define (default : α) cap
     let r1 := trb_fifo_push b0 v1
     let r2 := trb_fifo_push r1.2 v2
     let r3 := trb_fifo_push r2.2 v3
     let p1 := trb_fifo_pop r3.2 (default : α)
     let p2 := trb_fifo_pop p1.2.1 (default : α)
     let p3 := trb_fifo_pop p2.2.1 (default : α)
     r1.1 = 0 ∧ r2.1 = 0 ∧ r3.1 = 0 ∧
       p1.1 = 0 ∧ p2.1 = 0 ∧ p3.1 = 0 ∧
       p1.2.2 = v1 ∧ p2.2.2 = v2 ∧ p3.2.2 = v3) ∧
    ∀ ops : List (Op α), FifoOnly ops →
      trb_trace (trb_define (default : α) cap) ops = spec_fifo_trace cap [] ops := by
  have h0 : 0 < cap := by omega
  constructor
  · intro b0 r1 r2 r3 p1 p2 p3
    have hinv0 : FifoInv cap b0 := fifoInv_define (default : α) cap h0
    have hm0 : trb_model b0 = [] := trb_model_define (default : α) cap
    have hc0 : b0.count = 0 := rfl
    have hp1 := fifo_push_ok cap h0 hM b0 hinv0 v1 (by rw [hc0]; omega)
    have hr1 : r1 = trb_fifo_push b0 v1 := rfl
    have hm1 : trb_model r1.2 = [v1] := by rw [hr1, hp1.2.2, hm0]; rfl
    have hinv1 : FifoInv cap r1.2 := hp1.2.1
    have hc1 : r1.2.count = 1 := by rw [← trb_model_length r1.2, hm1]; rfl
    have hp2 := fifo_push_ok cap h0 hM r1.2 hinv1 v2 (by rw [hc1]; omega)
    have hr2 : r2 = trb_fifo_push r1.2 v2 := rfl
    have hm2 : trb_model r2.2 = [v1, v2] := by rw [hr2, hp2.2.2, hm1]; rfl
    have hinv2 : FifoInv cap r2.2 := hp2.2.1
    have hc2 : r2.2.count = 2 := by rw [← trb_model_length r2.2, hm2]; rfl
    have hp3 := fifo_push_ok cap h0 hM r2.2 hinv2 v3 (by rw [hc2]; omega)
    have hr3 : r3 = trb_fifo_push r2.2 v3 := rfl
    have hm3 : trb_model r3.2 = [v1, v2, v3] := by rw [hr3, hp3.2.2, hm2]; rfl
    have hinv3 : FifoInv cap r3.2 := hp3.2.1
    have hc3 : r3.2.count = 3 := by rw [← trb_model_length r3.2, hm3]; rfl
    have hq1 := fifo_pop_ok cap h0 hM r3.2 hinv3 (default : α) (by rw [hc3]; omega)
    have hs1 : p1 = trb_fifo_pop r3.2 (default : α) := rfl
    have hv1 : p1.2.2 = v1 := by
      have h := hq1.2.2.1
      rw [hm3, List.head?_cons] at h
      rw [hs1]
      exact Option.some_inj.mp h
    have hm4 : trb_model p1.2.1 = [v2, v3] := by rw [hs1, hq1.2.2.2, hm3]; rfl
    have hinv4 : FifoInv cap p1.2.1 := hq1.2.1
    have hc4 : p1.2.1.count = 2 := by rw [← trb_model_length p1.2.1, hm4]; rfl
    have hq2 := fifo_pop_ok cap h0 hM p1.2.1 hinv4 (default : α) (by rw [hc4]; omega)
    have hs2 : p2 = trb_fifo_pop p1.2.1 (default : α) := rfl
    have hv2 : p2.2.2 = v2 := by
      have h := hq2.2.2.1
      rw [hm4, List.head?_cons] at h
      rw [hs2]
      exact Option.some_inj.mp h
    have hm5 : trb_model p2.2.1 = [v3] := by rw [hs2, hq2.2.2.2, hm4]; rfl
    have hinv5 : FifoInv cap p2.2.1 := hq2.2.1
    have hc5 : p2.2.1.count = 1 := by rw [← trb_model_length p2.2.1, hm5]; rfl
    have hq3 := fifo_pop_ok cap h0 hM p2.2.1 hinv5 (default : α) (by rw [hc5]; omega)
    have hs3 : p3 = trb_fifo_pop p2.2.1 (default : α) := rfl
    have hv3 : p3.2.2 = v3 := by
      have h := hq3.2.2.1
      rw [hm5, List.head?_cons] at h
      rw [hs3]
      exact Option.some_inj.mp h
    exact ⟨by rw [hr1, hp1.1], by rw [hr2, hp2.1], by rw [hr3, hp3.1],
           by rw [hs1, hq1.1], by rw [hs2, hq2.1], by rw [hs3, hq3.1],
           hv1, hv2, hv3⟩
  · intro ops hops
    have hsim := fifo_run_sim cap h0 hM ops (trb_define (default : α) cap)
      (fifoInv_define (default : α) cap h0) hops
    rw [hsim.2.2, trb_model_define]

/-- Witness for C1 at capacity 3 with values 10, 20, 30. -/
theorem fifo_ordering_witness :
    3 ≤ 3 ∧ 3 < SIZE_MOD ∧
    (let b0 := trb_define (default : Nat) 3
     let r1 := trb_fifo_push b0 10
     let r2 := trb_fifo_push r1.2 20
     let r3 := trb_fifo_push r2.2 30
     let p1 := trb_fifo_pop r3.2 (default : Nat)
     let p2 := trb_fifo_pop p1.2.1 (default : Nat)
     let p3 := trb_fifo_pop p2.2.1 (default : Nat)
     r1.1 = 0 ∧ r2.1 = 0 ∧ r3.1 = 0 ∧
       p1.1 = 0 ∧ p2.1 = 0 ∧ p3.1 = 0 ∧
       p1.2.2 = 10 ∧ p2.2.2 = 20 ∧ p3.2.2 = 30) :=
  ⟨by decide, by decide,
   (fifo_ordering_correct 3 (by decide) (by decide) 10 20 30).1⟩

/-- C2: LIFO ordering — for every element type, every capacity of at
least 3 and all values `v1, v2, v3`: pushing them in order with
`trb_lifo_push` into a fresh buffer succeeds three times and three
`trb_lifo_pop` calls then succeed and deliver `v3, v2, v1` in that
order.  More generally, over every LIFO-only operation sequence from the
initial state, the successful pops deliver exactly the outputs of the
abstract bounded stack of the same capacity (`spec_lifo_trace`): every
successful pop returns the most recently pushed element not yet
popped. -/
theorem lifo_ordering_correct {α : Type} [Inhabited α] (cap : Nat)
    (h3 : 3 ≤ cap) (hM : cap < SIZE_MOD) (v1 v2 v3 : α) :
    (let b0 := trb_define (default : α) cap
     let r1 := trb_lifo_push b0 v1
     let r2 := trb_lifo_push r1.2 v2
     let r3 := trb_lifo_push r2.2 v3
     let p1 := trb_lifo_pop r3.2 (default : α)
     let p2 := trb_lifo_pop p1.2.1 (default : α)
     let p3 := trb_lifo_pop p2.2.1 (default : α)
     r1.1 = 0 ∧ r2.1 = 0 ∧ r3.1 = 0 ∧
       p1.1 = 0 ∧ p2.1 = 0 ∧ p3.1 = 0 ∧
       p1.2.2 = v3 ∧ p2.2.2 = v2 ∧ p3.2.2 = v1) ∧
    ∀ ops : List (Op α), LifoOnly ops →
      trb_trace (trb_define (default : α) cap) ops = spec_lifo_trace cap [] ops := by
  have hlast3 : ([v1, v2, v3] : List α).getLast? = some v3 := by
    rw [show ([v1, v2, v3] : List α) = [v1, v2] ++ [v3] from rfl, List.getLast?_concat]
  have hdrop3 : ([v1, v2, v3] : List α).dropLast = [v1, v2] := by
    rw [show ([v1, v2, v3] : List α) = [v1, v2] ++ [v3] from rfl, List.dropLast_concat]
  have hlast2 : ([v1, v2] : List α).getLast? = some v2 := by
    rw [show ([v1, v2] : List α) = [v1] ++ [v2] from rfl, List.getLast?_concat]
  have hdrop2 : ([v1, v2] : List α).dropLast = [v1] := by
    rw [show ([v1, v2] : List α) = [v1] ++ [v2] from rfl, List.dropLast_concat]
  have hlast1 : ([v1] : List α).getLast? = some v1 := by
    rw [show ([v1] : List α) = [] ++ [v1] from rfl, List.getLast?_concat]
  constructor
  · intro b0 r1 r2 r3 p1 p2 p3
    have hinv0 : LifoInv cap b0 := lifoInv_define (default : α) cap
    have hm0 : trb_lmodel b0 = [] := trb_lmodel_define (default : α) cap
    have hc0 : b0.count = 0 := rfl
    have hp1 := lifo_push_ok cap hM b0 hinv0 v1 (by rw [hc0]; omega)
    have hr1 : r1 = trb_lifo_push b0 v1 := rfl
    have hm1 : trb_lmodel r1.2 = [v1] := by rw [hr1, hp1.2.2, hm0]; rfl
    have hinv1 : LifoInv cap r1.2 := hp1.2.1
    have hc1 : r1.2.count = 1 := by rw [← trb_lmodel_length r1.2, hm1]; rfl
    have hp2 := lifo_push_ok cap hM r1.2 hinv1 v2 (by rw [hc1]; omega)
    have hr2 : r2 = trb_lifo_push r1.2 v2 := rfl
    have hm2 : trb_lmodel r2.2 = [v1, v2] := by rw [hr2, hp2.2.2, hm1]; rfl
    have hinv2 : LifoInv cap r2.2 := hp2.2.1
    have hc2 : r2.2.count = 2 := by rw [← trb_lmodel_length r2.2, hm2]; rfl
    have hp3 := lifo_push_ok cap hM r2.2 hinv2 v3 (by rw [hc2]; omega)
    have hr3 : r3 = trb_lifo_push r2.2 v3 := rfl
    have hm3 : trb_lmodel r3.2 = [v1, v2, v3] := by rw [hr3, hp3.2.2, hm2]; rfl
    have hinv3 : LifoInv cap r3.2 := hp3.2.1
    have hc3 : r3.2.count = 3 := by rw [← trb_lmodel_length r3.2, hm3]; rfl
    have hq1 := lifo_pop_ok cap hM r3.2 hinv3 (default : α) (by rw [hc3]; omega)
    have hs1 : p1 = trb_lifo_pop r3.2 (default : α) := rfl
    have hv1 : p1.2.2 = v3 := by
      have h := hq1.2.2.1
      rw [hm3, hlast3] at h
      rw [hs1]
      exact Option.some_inj.mp h
    have hm4 : trb_lmodel p1.2.1 = [v1, v2] := by rw [hs1, hq1.2.2.2, hm3, hdrop3]
    have hinv4 : LifoInv cap p1.2.1 := hq1.2.1
    have hc4 : p1.2.1.count = 2 := by rw [← trb_lmodel_length p1.2.1, hm4]; rfl
    have hq2 := lifo_pop_ok cap hM p1.2.1 hinv4 (default : α) (by rw [hc4]; omega)
    have hs2 : p2 = trb_lifo_pop p1.2.1 (default : α) := rfl
    have hv2 : p2.2.2 = v2 := by
      have h := hq2.2.2.1
      rw [hm4, hlast2] at h
      rw [hs2]
      exact Option.some_inj.mp h
    have hm5 : trb_lmodel p2.2.1 = [v1] := by rw [hs2, hq2.2.2.2, hm4, hdrop2]
    have hinv5 : LifoInv cap p2.2.1 := hq2.2.1
    have hc5 : p2.2.1.count = 1 := by rw [← trb_lmodel_length p2.2.1, hm5]; rfl
    have hq3 := lifo_pop_ok cap hM p2.2.1 hinv5 (default : α) (by rw [hc5]; omega)
    have hs3 : p3 = trb_lifo_pop p2.2.1 (default : α) := rfl
    have hv3 : p3.2.2 = v1 := by
      have h := hq3.2.2.1
      rw [hm5, hlast1] at h
      rw [hs3]
      exact Option.some_inj.mp h
    exact ⟨by rw [hr1, hp1.1], by rw [hr2, hp2.1], by rw [hr3, hp3.1],
           by rw [hs1, hq1.1], by rw [hs2, hq2.1], by rw [hs3, hq3.1],
           hv1, hv2, hv3⟩
  · intro ops hops
    have hsim := lifo_run_sim cap hM ops (trb_define (default : α) cap)
      (lifoInv_define (default : α) cap) hops
    rw [hsim.2.2, trb_lmodel_define]

/-- Witness for C2 at capacity 3 with values 10, 20, 30. -/
theorem lifo_ordering_witness :
    3 ≤ 3 ∧ 3 < SIZE_MOD ∧
    (let b0 := trb_define (default : Nat) 3
     let r1 := trb_lifo_push b0 10
     let r2 := trb_lifo_push r1.2 20
     let r3 := trb_lifo_push r2.2 30
     let p1 := trb_lifo_pop r3.2 (default : Nat)
     let p2 := trb_lifo_pop p1.2.1 (default : Nat)
     let p3 := trb_lifo_pop p2.2.1 (default : Nat)
     r1.1 = 0 ∧ r2.1 = 0 ∧ r3.1 = 0 ∧
       p1.1 = 0 ∧ p2.1 = 0 ∧ p3.1 = 0 ∧
       p1.2.2 = 30 ∧ p2.2.2 = 20 ∧ p3.2.2 = 10) :=
  ⟨by decide, by decide,
   (lifo_ordering_correct 3 (by decide) (by decide) 10 20 30).1⟩

/-- C3: Force-push semantics — on every buffer state reachable by
FIFO-only operations, `trb_fifo_force_push` (which has no failure code:
it is total) writes the value at index `tail` and advances
`tail = (tail + 1) mod capacity`; if `count = capacity` held before the
call it additionally advances `head = (head + 1) mod capacity` and
leaves `count` unchanged (the oldest element is overwritten), otherwise
it increments `count` and leaves `head` unchanged.  In particular, on a
capacity-3 buffer whose logical FIFO content is `[x, y, z]` (x oldest),
force-pushing `v` leaves logical content `[y, z, v]` with `count`
still 3. -/
theorem fifo_force_push_correct {α : Type} [Inhabited α] (cap : Nat)
    (h0 : 0 < cap) (hM : cap < SIZE_MOD) (d : α) (ops : List (Op α))
    (hops : FifoOnly ops) (v : α) :
    ((trb_fifo_force_push (trb_run (trb_define d cap) ops) v).buf
       = (trb_run (trb_define d cap) ops).buf.set
           (trb_run (trb_define d cap) ops).tail v ∧
     (trb_fifo_force_push (trb_run (trb_define d cap) ops) v).tail
       = ((trb_run (trb_define d cap) ops).tail + 1) % cap ∧
     ((trb_run (trb_define d cap) ops).count = cap →
        (trb_fifo_force_push (trb_run (trb_define d cap) ops) v).head
          = ((trb_run (trb_define d cap) ops).head + 1) % cap ∧
        (trb_fifo_force_push (trb_run (trb_define d cap) ops) v).count
          = (trb_run (trb_define d cap) ops).count) ∧
     ((trb_run (trb_define d cap) ops).count ≠ cap →
        (trb_fifo_force_push (trb_run (trb_define d cap) ops) v).head
          = (trb_run (trb_define d cap) ops).head ∧
        (trb_fifo_force_push (trb_run (trb_define d cap) ops) v).count
          = (trb_run (trb_define d cap) ops).count + 1)) ∧
    (∀ x y z : α, cap = 3 →
       trb_model (trb_run (trb_define d cap) ops) = [x, y, z] →
       trb_model (trb_fifo_force_push (trb_run (trb_define d cap) ops) v)
         = [y, z, v] ∧
       (trb_fifo_force_push (trb_run (trb_define d cap) ops) v).count = 3) := by
  have hinv : FifoInv cap (trb_run (trb_define d cap) ops) :=
    (fifo_run_sim cap h0 hM ops (trb_define d cap) (fifoInv_define d cap h0) hops).1
  have hcap : (trb_run (trb_define d cap) ops).capacity = cap := hinv.hcapacity
  constructor
  · by_cases hf : (trb_run (trb_define d cap) ops).count = cap
    · have hfp := fifo_force_push_full cap h0 (trb_run (trb_define d cap) ops) hinv v hf
      refine ⟨?_, ?_, fun _ => ⟨?_, ?_⟩, fun hne => absurd hf hne⟩
      · rw [hfp.1]
      · rw [hfp.1]
      · rw [hfp.1]
      · rw [hfp.1]
    · have hlt : (trb_run (trb_define d cap) ops).count < cap := by
        have := hinv.hcount
        omega
      have hfp := fifo_force_push_notfull cap h0 hM
        (trb_run (trb_define d cap) ops) hinv v hlt
      refine ⟨?_, ?_, fun heq => absurd heq hf, fun _ => ⟨?_, ?_⟩⟩
      · rw [hfp.1]
      · rw [hfp.1]
      · rw [hfp.1]
      · rw [hfp.1]
  · intro x y z hcap3 hmodel
    have hcnt : (trb_run (trb_define d cap) ops).count = 3 := by
      rw [← trb_model_length (trb_run (trb_define d cap) ops), hmodel]; rfl
    have hf : (trb_run (trb_define d cap) ops).count = cap := by omega
    have hfp := fifo_force_push_full cap h0 (trb_run (trb_define d cap) ops) hinv v hf
    constructor
    · rw [hfp.2.2, hmodel]
      rfl
    · rw [hfp.1]
      exact hcnt

/-- Witness for C3: filling a capacity-3 buffer with 1, 2, 3 and
force-pushing 4 yields logical content `[2, 3, 4]` with count 3. -/
theorem fifo_force_push_witness :
    0 < 3 ∧ 3 < SIZE_MOD ∧
    FifoOnly [Op.fifoPush 1, Op.fifoPush 2, Op.fifoPush (3 : Nat)] ∧
    (trb_model (trb_fifo_force_push
        (trb_run (trb_define (0 : Nat) 3)
          [Op.fifoPush 1, Op.fifoPush 2, Op.fifoPush 3]) 4) = [2, 3, 4] ∧
     (trb_fifo_force_push
        (trb_run (trb_define (0 : Nat) 3)
          [Op.fifoPush 1, Op.fifoPush 2, Op.fifoPush 3]) 4).count = 3) :=
  ⟨by decide, by decide, by decide,
   (fifo_force_push_correct 3 (by decide) (by decide) 0
      [Op.fifoPush 1, Op.fifoPush 2, Op.fifoPush 3] (by decide) 4).2
     1 2 3 rfl (by decide)⟩
